import Mathlib

/-
Verification development for the real-time market monitor
(market_store.py, kalshi_ws_client.py, bot_ws.py).

The Python dictionaries are embedded as association lists with
insert-or-replace update, the order-book sides as lists of
(price, size) pairs of integers, and the streaming client as a
set of functions over an explicit state record driven by an oracle
of connect outcomes.
-/

/-- Lookup in an association list: returns the value stored at the first
matching key, mirroring a Python dict read. -/
def lookupA {α : Type} (k : String) : List (String × α) → Option α
  | [] => none
  | (k2, v) :: rest => if k2 = k then some v else lookupA k rest

/-- Insert-or-replace in an association list, mirroring a Python dict
assignment: replaces the first matching entry, else appends. -/
def insertA {α : Type} (k : String) (v : α) : List (String × α) → List (String × α)
  | [] => [(k, v)]
  | (k2, v2) :: rest => if k2 = k then (k, v) :: rest else (k2, v2) :: insertA k v rest

theorem lookupA_insertA_self {α : Type} (k : String) (v : α) (l : List (String × α)) :
    lookupA k (insertA k v l) = some v := by
  induction l with
  | nil => simp [insertA, lookupA]
  | cons hd tl ih =>
    obtain ⟨k2, v2⟩ := hd
    by_cases h : k2 = k
    · simp [insertA, lookupA, h]
    · simp [insertA, lookupA, h, ih]

theorem lookupA_insertA_other {α : Type} (k k2 : String) (v : α) (l : List (String × α))
    (h : k2 ≠ k) : lookupA k2 (insertA k v l) = lookupA k2 l := by
  induction l with
  | nil => simp [insertA, lookupA, Ne.symm h]
  | cons hd tl ih =>
    obtain ⟨k3, v3⟩ := hd
    by_cases h3 : k3 = k
    · subst h3
      simp [insertA, lookupA, Ne.symm h]
    · simp [insertA, lookupA, h3, ih]

theorem lookupA_mem {α : Type} {k : String} {v : α} {l : List (String × α)}
    (h : lookupA k l = some v) : (k, v) ∈ l := by
  induction l with
  | nil => simp [lookupA] at h
  | cons hd tl ih =>
    obtain ⟨k2, v2⟩ := hd
    by_cases h2 : k2 = k
    · subst h2
      simp [lookupA] at h
      simp [h]
    · simp [lookupA, h2] at h
      exact List.mem_cons_of_mem _ (ih h)

/-! ## Order-book side: sorted (price, size) levels

`handle_orderbook_delta` keeps each side as a list of `[price, count]`
pairs; on inserting a fresh level it appends and re-sorts with
`current_book.sort(key=lambda x: x[0], reverse=True)` (a stable sort,
descending by price). -/

/-- Stable descending insertion by price (first component). -/
def insertDesc (x : Int × Int) : List (Int × Int) → List (Int × Int)
  | [] => [x]
  | y :: ys => if y.1 ≤ x.1 then x :: y :: ys else y :: insertDesc x ys

/-- Stable sort, descending by price: the embedding of
`list.sort(key=lambda x: x[0], reverse=True)`. -/
def sortDesc : List (Int × Int) → List (Int × Int)
  | [] => []
  | x :: xs => insertDesc x (sortDesc xs)

/-- The level-scan loop of `handle_orderbook_delta`: find the first level
at `price`; add `delta` to its count, dropping the level if the new count
is `≤ 0`. Returns `none` when no level matches (`found = False`). -/
def updateLevels (price delta : Int) : List (Int × Int) → Option (List (Int × Int))
  | [] => none
  | l :: ls =>
    if l.1 = price then
      some (if l.2 + delta ≤ 0 then ls else (price, l.2 + delta) :: ls)
    else
      (updateLevels price delta ls).map (fun b => l :: b)

/-- One delta applied to one side, as in `handle_orderbook_delta`
lines 81-98: update a matching level in place, else (when the delta is
positive) append the new level and re-sort descending. -/
def applyDelta (price delta : Int) (book : List (Int × Int)) : List (Int × Int) :=
  match updateLevels price delta book with
  | some b => b
  | none => if 0 < delta then sortDesc (book ++ [(price, delta)]) else book

/-- A sequence of deltas applied to one side, oldest first. -/
def applyDeltas (ds : List (Int × Int)) (book : List (Int × Int)) : List (Int × Int) :=
  ds.foldl (fun b pd => applyDelta pd.1 pd.2 b) book

/-- Side invariant: levels strictly descending by price, all sizes
strictly positive. -/
def SideInv (b : List (Int × Int)) : Prop :=
  List.Pairwise (fun x y => y.1 < x.1) b ∧ ∀ l ∈ b, 0 < l.2

instance (b : List (Int × Int)) : Decidable (SideInv b) := by
  unfold SideInv; infer_instance

theorem insertDesc_perm (x : Int × Int) (l : List (Int × Int)) :
    List.Perm (insertDesc x l) (x :: l) := by
  induction l with
  | nil => simp [insertDesc]
  | cons y ys ih =>
    by_cases h : y.1 ≤ x.1
    · simp [insertDesc, h]
    · simp only [insertDesc, if_neg h]
      exact (ih.cons y).trans (List.Perm.swap x y ys)

theorem sortDesc_perm (l : List (Int × Int)) : List.Perm (sortDesc l) l := by
  induction l with
  | nil => simp [sortDesc]
  | cons x xs ih =>
    exact (insertDesc_perm x (sortDesc xs)).trans (ih.cons x)

theorem insertDesc_sorted (x : Int × Int) (l : List (Int × Int))
    (h : List.Pairwise (fun a b => b.1 ≤ a.1) l) :
    List.Pairwise (fun a b => b.1 ≤ a.1) (insertDesc x l) := by
  induction l with
  | nil => simp [insertDesc]
  | cons y ys ih =>
    rcases List.pairwise_cons.mp h with ⟨hy, hys⟩
    by_cases hle : y.1 ≤ x.1
    · simp only [insertDesc, if_pos hle]
      refine List.pairwise_cons.mpr ⟨?_, h⟩
      intro b hb
      rcases List.mem_cons.mp hb with rfl | hb
      · exact hle
      · exact le_trans (hy b hb) hle
    · simp only [insertDesc, if_neg hle]
      refine List.pairwise_cons.mpr ⟨?_, ih hys⟩
      intro b hb
      rcases List.mem_cons.mp ((insertDesc_perm x ys).mem_iff.mp hb) with rfl | hb
      · exact le_of_lt (lt_of_not_le hle)
      · exact hy b hb

theorem sortDesc_sorted (l : List (Int × Int)) :
    List.Pairwise (fun a b => b.1 ≤ a.1) (sortDesc l) := by
  induction l with
  | nil => simp [sortDesc]
  | cons x xs ih => exact insertDesc_sorted x (sortDesc xs) ih

theorem pairwise_strict_of_sorted_nodup (l : List (Int × Int))
    (hs : List.Pairwise (fun a b => b.1 ≤ a.1) l)
    (hn : (l.map Prod.fst).Nodup) :
    List.Pairwise (fun a b => b.1 < a.1) l := by
  have hne : List.Pairwise (fun a b : Int × Int => a.1 ≠ b.1) l :=
    (List.pairwise_map.mp hn)
  exact (hs.and hne).imp (fun h => lt_of_le_of_ne h.1 (Ne.symm h.2))

theorem updateLevels_none_not_mem {price delta : Int} {b : List (Int × Int)}
    (h : updateLevels price delta b = none) : ∀ l ∈ b, l.1 ≠ price := by
  induction b with
  | nil => simp
  | cons l ls ih =>
    by_cases hl : l.1 = price
    · simp [updateLevels, hl] at h
    · simp only [updateLevels, if_neg hl, Option.map_eq_none'] at h
      intro x hx
      rcases List.mem_cons.mp hx with rfl | hx
      · exact hl
      · exact ih h x hx

theorem updateLevels_some_fst_sublist {price delta : Int} {b b2 : List (Int × Int)}
    (h : updateLevels price delta b = some b2) :
    List.Sublist (b2.map Prod.fst) (b.map Prod.fst) := by
  induction b generalizing b2 with
  | nil => simp [updateLevels] at h
  | cons l ls ih =>
    by_cases hl : l.1 = price
    · simp only [updateLevels, if_pos hl, Option.some_inj] at h
      by_cases hz : l.2 + delta ≤ 0
      · simp only [if_pos hz] at h
        subst h
        exact List.sublist_cons_of_sublist _ (List.Sublist.refl _)
      · simp only [if_neg hz] at h
        subst h
        simp [hl]
    · simp only [updateLevels, if_neg hl, Option.map_eq_some'] at h
      obtain ⟨b3, hb3, rfl⟩ := h
      simpa using (ih hb3).cons₂ l.1

theorem updateLevels_some_pos {price delta : Int} {b b2 : List (Int × Int)}
    (hpos : ∀ l ∈ b, 0 < l.2) (h : updateLevels price delta b = some b2) :
    ∀ l ∈ b2, 0 < l.2 := by
  induction b generalizing b2 with
  | nil => simp [updateLevels] at h
  | cons l ls ih =>
    have hls : ∀ x ∈ ls, 0 < x.2 := fun x hx => hpos x (List.mem_cons_of_mem _ hx)
    by_cases hl : l.1 = price
    · simp only [updateLevels, if_pos hl, Option.some_inj] at h
      by_cases hz : l.2 + delta ≤ 0
      · simp only [if_pos hz] at h
        subst h
        exact hls
      · simp only [if_neg hz] at h
        subst h
        intro x hx
        rcases List.mem_cons.mp hx with rfl | hx
        · exact lt_of_not_le hz
        · exact hls x hx
    · simp only [updateLevels, if_neg hl, Option.map_eq_some'] at h
      obtain ⟨b3, hb3, rfl⟩ := h
      intro x hx
      rcases List.mem_cons.mp hx with rfl | hx
      · exact hpos x (List.mem_cons_self _ _)
      · exact ih hls hb3 x hx

theorem sideInv_nodup {b : List (Int × Int)} (h : SideInv b) :
    (b.map Prod.fst).Nodup := by
  exact List.pairwise_map.mpr (h.1.imp fun hlt => ne_of_gt hlt)

theorem applyDelta_inv (price delta : Int) (b : List (Int × Int)) (h : SideInv b) :
    SideInv (applyDelta price delta b) := by
  unfold applyDelta
  cases hu : updateLevels price delta b with
  | some b2 =>
    refine ⟨?_, updateLevels_some_pos h.2 hu⟩
    have hsub := updateLevels_some_fst_sublist hu
    have hb : List.Pairwise (fun a b : Int => b < a) (b.map Prod.fst) :=
      List.pairwise_map.mpr h.1
    exact List.pairwise_map.mp (hb.sublist hsub)
  | none =>
    by_cases hd : 0 < delta
    · simp only [if_pos hd]
      set l2 := b ++ [(price, delta)] with hl2
      have hperm : List.Perm (sortDesc l2) l2 := sortDesc_perm l2
      have hnodup : (l2.map Prod.fst).Nodup := by
        rw [hl2, List.map_append]
        refine List.Nodup.append (sideInv_nodup h) (by simp) ?_
        intro a ha hb2
        simp only [List.map_cons, List.map_nil, List.mem_singleton] at hb2
        subst hb2
        rcases List.mem_map.mp ha with ⟨x, hx, hfst⟩
        exact updateLevels_none_not_mem hu x hx hfst
      have hnodup2 : ((sortDesc l2).map Prod.fst).Nodup :=
        (List.Perm.nodup_iff (hperm.map Prod.fst)).mpr hnodup
      refine ⟨pairwise_strict_of_sorted_nodup _ (sortDesc_sorted l2) hnodup2, ?_⟩
      intro x hx
      rcases List.mem_append.mp (hperm.mem_iff.mp hx) with hx | hx
      · exact h.2 x hx
      · simp only [List.mem_singleton] at hx
        subst hx
        exact hd
    · simpa only [if_neg hd] using h

/-- Claim C1: starting from an empty side (or any side satisfying the
invariant: strictly descending prices, positive sizes), every sequence of
delta applications preserves the invariant, and prices stay pairwise
distinct. -/
theorem orderbook_side_invariant (ds : List (Int × Int)) (b : List (Int × Int))
    (h : SideInv b) :
    SideInv (applyDeltas ds b) ∧ ((applyDeltas ds b).map Prod.fst).Nodup := by
  induction ds generalizing b with
  | nil => exact ⟨h, sideInv_nodup h⟩
  | cons d ds ih =>
    simpa [applyDeltas] using ih (applyDelta d.1 d.2 b) (applyDelta_inv d.1 d.2 b h)

/-- Witness for C1 at a concrete input: the empty side satisfies the
invariant, and a concrete delta sequence keeps it. -/
theorem orderbook_side_invariant_witness :
    SideInv ([] : List (Int × Int)) ∧
      (SideInv (applyDeltas [(60, 5), (50, 3), (60, -2), (70, 1)] []) ∧
        ((applyDeltas [(60, 5), (50, 3), (60, -2), (70, 1)] []).map Prod.fst).Nodup) :=
  ⟨by decide, orderbook_side_invariant [(60, 5), (50, 3), (60, -2), (70, 1)] [] (by decide)⟩

/-! ## MarketStore: snapshots, books, event index

`MarketStore` keeps three dicts: `markets` (symbol → snapshot fields),
`orderbooks` (symbol → two sides plus timestamp) and `event_markets`
(event key → list of member symbols). The snapshot is a Python dict;
here it is a record of the keys the store ever reads or writes, each
optional (a missing key and an explicit None both embed to `none`). -/

structure Snap where
  yes_bid : Option Int
  yes_ask : Option Int
  no_bid : Option Int
  no_ask : Option Int
  last_price : Option Int
  volume : Option Int
  ts : Option Int
  event_ticker : Option String
  event_title : Option String
  title : Option String
  expiration_time : Option String
  expiration_date : Option String
deriving DecidableEq

/-- The empty dict created by `self.markets[ticker] = {}`. -/
def emptySnap : Snap :=
  ⟨none, none, none, none, none, none, none, none, none, none, none, none⟩

/-- Payload of a ticker_v2 frame (`data["msg"]`), fields read with
`msg.get(...)`, so absent keys embed to `none`. -/
structure TickerMsg where
  ticker : Option String
  yes_bid : Option Int
  yes_ask : Option Int
  no_bid : Option Int
  no_ask : Option Int
  last_price : Option Int
  volume : Option Int
  ts : Option Int
deriving DecidableEq

/-- An order-book side selector, the value of `msg.get("side")`. -/
inductive Side
  | yes
  | no
deriving DecidableEq

/-- One symbol's order book: two sides plus the last-update timestamp. -/
structure Book where
  yes : List (Int × Int)
  no : List (Int × Int)
  ts : Nat
deriving DecidableEq

def getSide (s : Side) (b : Book) : List (Int × Int) :=
  match s with
  | Side.yes => b.yes
  | Side.no => b.no

def setSide (s : Side) (lv : List (Int × Int)) (b : Book) : Book :=
  match s with
  | Side.yes => { b with yes := lv }
  | Side.no => { b with no := lv }

/-- Payload of an orderbook_delta frame (`data["msg"]`). Well-formed
frames carry a side, a price and a signed delta; only the symbol key can
be missing on the path the store guards against. -/
structure DeltaMsg where
  market_ticker : Option String
  side : Side
  price : Int
  delta : Int
deriving DecidableEq

/-- The MarketStore state (the REST client handle is irrelevant here). -/
structure Store where
  markets : List (String × Snap)
  orderbooks : List (String × Book)
  event_markets : List (String × List String)
deriving DecidableEq

/-- Embedding of `MarketStore.handle_ticker_update` (market_store.py
lines 44-63): on a frame with a truthy ticker, auto-create an empty
snapshot if needed, then `dict.update` the seven stream fields with the
values read from the frame (absent keys become None). -/
def handle_ticker_update (msg : TickerMsg) (s : Store) : Store :=
  match msg.ticker with
  | none => s
  | some t =>
    if t = "" then s
    else
      let base := (lookupA t s.markets).getD emptySnap
      let upd : Snap :=
        { base with
          yes_bid := msg.yes_bid
          yes_ask := msg.yes_ask
          no_bid := msg.no_bid
          no_ask := msg.no_ask
          last_price := msg.last_price
          volume := msg.volume
          ts := msg.ts }
      { s with markets := insertA t upd s.markets }

/-- Embedding of `MarketStore.handle_orderbook_delta` (market_store.py
lines 65-101): ignore frames without a truthy symbol or without an
existing book; otherwise apply the delta to the addressed side and stamp
the book with the current time `now`. -/
def handle_orderbook_delta (msg : DeltaMsg) (now : Nat) (s : Store) : Store :=
  match msg.market_ticker with
  | none => s
  | some t =>
    if t = "" then s
    else
      match lookupA t s.orderbooks with
      | none => s
      | some bk =>
        let levels := applyDelta msg.price msg.delta (getSide msg.side bk)
        let bk2 := setSide msg.side levels { bk with ts := now }
        { s with orderbooks := insertA t bk2 s.orderbooks }

/-- The consolidated per-market view built by
`MarketStore.get_market_summary` (lines 103-121). -/
structure Summary where
  ticker : String
  event_ticker : String
  event_title : String
  title : String
  yes_bid : Option Int
  yes_ask : Option Int
  no_bid : Option Int
  no_ask : Option Int
  last_price : Option Int
  expiration_time : Option String
  expiration_date : Option String
deriving DecidableEq

/-- Embedding of `MarketStore.get_market_summary`. -/
def get_market_summary (t : String) (s : Store) : Option Summary :=
  (lookupA t s.markets).map fun m =>
    { ticker := t
      event_ticker := m.event_ticker.getD t
      event_title := m.event_title.getD ""
      title := m.title.getD ""
      yes_bid := m.yes_bid
      yes_ask := m.yes_ask
      no_bid := m.no_bid
      no_ask := m.no_ask
      last_price := m.last_price
      expiration_time := m.expiration_time
      expiration_date := m.expiration_date }

/-- Embedding of `MarketStore.get_event_summary` (lines 123-129): the
summaries of the event's member symbols, skipping those without one. -/
def get_event_summary (e : String) (s : Store) : List Summary :=
  match lookupA e s.event_markets with
  | none => []
  | some ts => ts.filterMap (fun t => get_market_summary t s)

/-- Claim C9: from an empty yes side, a +5 delta at price 60 yields the
single level (60, 5); a further -5 delta at 60 empties the side — a
level reduced to exactly zero is removed. -/
theorem delta_insert_then_remove_example :
    lookupA "T"
        (handle_orderbook_delta ⟨some "T", Side.yes, 60, 5⟩ 1
          ⟨[], [("T", ⟨[], [], 0⟩)], []⟩).orderbooks
      = some ⟨[(60, 5)], [], 1⟩ ∧
    lookupA "T"
        (handle_orderbook_delta ⟨some "T", Side.yes, 60, -5⟩ 2
          (handle_orderbook_delta ⟨some "T", Side.yes, 60, 5⟩ 1
            ⟨[], [("T", ⟨[], [], 0⟩)], []⟩)).orderbooks
      = some ⟨[], [], 2⟩ := by
  constructor <;> rfl

/-- Claim C8: an order-book-delta frame with no symbol, or whose symbol
has no existing book, leaves the whole store untouched — no book is
created, no level changes, no timestamp moves. -/
theorem orderbook_delta_ignores_unknown (msg : DeltaMsg) (now : Nat) (s : Store)
    (h : msg.market_ticker = none ∨
      ∃ t, msg.market_ticker = some t ∧ lookupA t s.orderbooks = none) :
    handle_orderbook_delta msg now s = s := by
  rcases h with h | ⟨t, ht, hb⟩
  · simp [handle_orderbook_delta, h]
  · by_cases he : t = ""
    · simp [handle_orderbook_delta, ht, he]
    · simp [handle_orderbook_delta, ht, he, hb]

/-- Witness for C8: a concrete missing-symbol frame and a concrete
unknown-symbol frame are both no-ops on a concrete store. -/
theorem orderbook_delta_ignores_unknown_witness :
    handle_orderbook_delta ⟨none, Side.yes, 60, 5⟩ 7
        ⟨[], [("T", ⟨[], [], 0⟩)], []⟩
      = ⟨[], [("T", ⟨[], [], 0⟩)], []⟩ ∧
    handle_orderbook_delta ⟨some "U", Side.no, 40, 2⟩ 7
        ⟨[], [("T", ⟨[], [], 0⟩)], []⟩
      = ⟨[], [("T", ⟨[], [], 0⟩)], []⟩ :=
  ⟨orderbook_delta_ignores_unknown _ _ _ (Or.inl rfl),
   orderbook_delta_ignores_unknown _ _ _ (Or.inr ⟨"U", rfl, by rfl⟩)⟩

/-- Counterexample to claim C2: a ticker frame that carries the symbol
but omits yes_bid does not leave the previous yes_bid in place — the
stored value 10 is overwritten with none. -/
theorem ticker_update_not_partial_merge_cex :
    (lookupA "T"
        (⟨[("T", { emptySnap with yes_bid := some 10, volume := some 7 })], [], []⟩ :
          Store).markets).map Snap.yes_bid = some (some 10) ∧
    (lookupA "T"
        (handle_ticker_update ⟨some "T", none, none, none, none, none, none, none⟩
          ⟨[("T", { emptySnap with yes_bid := some 10, volume := some 7 })], [],
            []⟩).markets).map Snap.yes_bid = some none := by
  constructor <;> rfl

/-- Claim C2 as amended: on a frame with a truthy symbol,
`handle_ticker_update` overwrites exactly the seven stream fields
(yes_bid, yes_ask, no_bid, no_ask, last_price, volume, ts) with the
values read from the frame — absent frame fields become none rather than
keeping their old value — while every other snapshot field, and the rest
of the store, is left unchanged. -/
theorem ticker_update_overwrites_stream_fields (s : Store) (msg : TickerMsg)
    (t : String) (h1 : msg.ticker = some t) (h2 : t ≠ "") :
    (∃ snap,
      lookupA t (handle_ticker_update msg s).markets = some snap ∧
      snap.yes_bid = msg.yes_bid ∧ snap.yes_ask = msg.yes_ask ∧
      snap.no_bid = msg.no_bid ∧ snap.no_ask = msg.no_ask ∧
      snap.last_price = msg.last_price ∧ snap.volume = msg.volume ∧
      snap.ts = msg.ts ∧
      snap.event_ticker = ((lookupA t s.markets).getD emptySnap).event_ticker ∧
      snap.event_title = ((lookupA t s.markets).getD emptySnap).event_title ∧
      snap.title = ((lookupA t s.markets).getD emptySnap).title ∧
      snap.expiration_time = ((lookupA t s.markets).getD emptySnap).expiration_time ∧
      snap.expiration_date = ((lookupA t s.markets).getD emptySnap).expiration_date) ∧
    (handle_ticker_update msg s).orderbooks = s.orderbooks ∧
    (handle_ticker_update msg s).event_markets = s.event_markets := by
  simp only [handle_ticker_update, h1, if_neg h2]
  refine ⟨⟨_, lookupA_insertA_self t _ s.markets, ?_⟩, ?_, ?_⟩ <;> simp

/-- Witness for the amended C2 at a concrete store and frame. -/
theorem ticker_update_overwrites_stream_fields_witness :
    (∃ snap,
      lookupA "T"
          (handle_ticker_update
            ⟨some "T", some 4, none, none, none, none, none, some 9⟩
            ⟨[("T", { emptySnap with yes_bid := some 10, title := some "m" })],
              [], []⟩).markets = some snap ∧
      snap.yes_bid = some 4 ∧ snap.yes_ask = none ∧
      snap.no_bid = none ∧ snap.no_ask = none ∧
      snap.last_price = none ∧ snap.volume = none ∧
      snap.ts = some 9 ∧
      snap.event_ticker = none ∧ snap.event_title = none ∧
      snap.title = some "m" ∧ snap.expiration_time = none ∧
      snap.expiration_date = none) ∧
    (handle_ticker_update ⟨some "T", some 4, none, none, none, none, none, some 9⟩
        ⟨[("T", { emptySnap with yes_bid := some 10, title := some "m" })], [],
          []⟩).orderbooks = [] ∧
    (handle_ticker_update ⟨some "T", some 4, none, none, none, none, none, some 9⟩
        ⟨[("T", { emptySnap with yes_bid := some 10, title := some "m" })], [],
          []⟩).event_markets = [] :=
  ticker_update_overwrites_stream_fields _ _ "T" rfl (by decide)

theorem handle_ticker_update_event_markets (msg : TickerMsg) (s : Store) :
    (handle_ticker_update msg s).event_markets = s.event_markets := by
  unfold handle_ticker_update
  cases msg.ticker with
  | none => rfl
  | some t =>
    by_cases h : t = "" <;> simp [h]

theorem get_market_summary_ticker {t : String} {s : Store} {x : Summary}
    (h : get_market_summary t s = some x) : x.ticker = t := by
  unfold get_market_summary at h
  rcases Option.map_eq_some'.mp h with ⟨m, _, rfl⟩
  rfl

/-- Claim C10: ticker updates never modify the symbol-to-event grouping
index, so a symbol that is in no event's member list before a sequence
of ticker updates (for example one first seen via a stream ticker frame)
is still in none afterwards and never appears in any event summary. -/
theorem ticker_updates_never_reach_event_summaries
    (msgs : List TickerMsg) (s : Store) (t : String)
    (h : ∀ p ∈ s.event_markets, t ∉ p.2) :
    (msgs.foldl (fun st m => handle_ticker_update m st) s).event_markets
        = s.event_markets ∧
    ∀ e x, x ∈ get_event_summary e
        (msgs.foldl (fun st m => handle_ticker_update m st) s) → x.ticker ≠ t := by
  have hev : ∀ (ms : List TickerMsg) (st : Store),
      (ms.foldl (fun st m => handle_ticker_update m st) st).event_markets
        = st.event_markets := by
    intro ms
    induction ms with
    | nil => intro st; rfl
    | cons m ms ih =>
      intro st
      simpa [handle_ticker_update_event_markets] using ih (handle_ticker_update m st)
  refine ⟨hev msgs s, ?_⟩
  intro e x hx
  unfold get_event_summary at hx
  cases hl : lookupA e (msgs.foldl (fun st m => handle_ticker_update m st) s).event_markets with
  | none => simp [hl] at hx
  | some members =>
    rw [hl] at hx
    rcases List.mem_filterMap.mp hx with ⟨tk, htk, hsum⟩
    have hx2 : x.ticker = tk := get_market_summary_ticker hsum
    rw [hev msgs s] at hl
    have hmem : (e, members) ∈ s.event_markets := lookupA_mem hl
    have hnot : t ∉ members := h (e, members) hmem
    intro hxt
    exact hnot ((hx2.symm.trans hxt) ▸ htk)

/-- Witness for C10: a store whose only event lists symbol A never shows
symbol B in an event summary, after a ticker update that creates a
snapshot for B. -/
theorem ticker_updates_never_reach_event_summaries_witness :
    ([⟨some "B", some 1, none, none, none, none, none, none⟩].foldl
        (fun st m => handle_ticker_update m st)
        ⟨[("A", emptySnap)], [], [("E", ["A"])]⟩).event_markets
      = [("E", ["A"])] ∧
    ∀ e x, x ∈ get_event_summary e
        ([⟨some "B", some 1, none, none, none, none, none, none⟩].foldl
          (fun st m => handle_ticker_update m st)
          ⟨[("A", emptySnap)], [], [("E", ["A"])]⟩) → x.ticker ≠ "B" :=
  ticker_updates_never_reach_event_summaries _ _ "B" (by decide)

/-! ## KalshiWSClient: connect, reconnect backoff, stop

The client state is the `is_running` flag and `_reconnect_delay`
(kalshi_ws_client.py lines 37-39; the maximum is 60). The network is an
oracle: a list of outcomes for successive connect attempts (`true` = the
handshake succeeds). Each function returns the final state, the list of
backoff sleeps performed (in seconds), and the number of connect
attempts whose outcome was consumed. `reconnectResume` is the
continuation of `_handle_reconnect` after its `asyncio.sleep`: the code
performs no flag re-check there before calling `connect()`. -/

structure WS where
  is_running : Bool
  reconnect_delay : Nat
deriving DecidableEq

/-- Initial client state (`is_running = False`, `_reconnect_delay = 1`). -/
def initWS : WS := ⟨false, 1⟩

/-- The configured cap `_max_reconnect_delay`. -/
def maxReconnectDelay : Nat := 60

mutual

/-- Embedding of `KalshiWSClient.connect` (lines 126-145): on success set
the running flag and reset the delay to 1; on failure call
`_handle_reconnect` only when `is_running` is still true. -/
def connect : List Bool → WS → WS × List Nat × Nat
  | [], s => (s, [], 0)
  | ok :: rest, s =>
    if ok then (⟨true, 1⟩, [], 1)
    else
      if s.is_running then
        let r := handleReconnect rest s
        (r.1, r.2.1, r.2.2 + 1)
      else (s, [], 1)
termination_by o _ => 3 * o.length
decreasing_by simp [List.length_cons]; omega

/-- Embedding of `KalshiWSClient._handle_reconnect` (lines 185-191): the
body runs only when `is_running` is false; it sleeps the current delay
and continues with `reconnectResume`. -/
def handleReconnect : List Bool → WS → WS × List Nat × Nat
  | o, s =>
    if s.is_running then (s, [], 0)
    else
      let r := reconnectResume o s
      (r.1, s.reconnect_delay :: r.2.1, r.2.2)
termination_by o _ => 3 * o.length + 2
decreasing_by omega

/-- The continuation of `_handle_reconnect` after the backoff sleep
(lines 190-191): double the delay capped at the maximum, then call
`connect()` — without re-checking the running flag. -/
def reconnectResume : List Bool → WS → WS × List Nat × Nat
  | o, s => connect o ⟨s.is_running, min (s.reconnect_delay * 2) maxReconnectDelay⟩
termination_by o _ => 3 * o.length + 1
decreasing_by omega

end

/-- Embedding of the failure path of `KalshiWSClient._listen`
(lines 176-183): clear the running flag, then call `_handle_reconnect`. -/
def listenDrop (o : List Bool) (s : WS) : WS × List Nat × Nat :=
  handleReconnect o ⟨false, s.reconnect_delay⟩

/-- Embedding of `KalshiWSClient.stop` (lines 232-236): clear the running
flag (the transport close is outside this state). -/
def stopWS (s : WS) : WS := ⟨false, s.reconnect_delay⟩

/-- Evidence against claim C3: after a dropped connection, no matter how
many consecutive connect failures follow (n of them available), the
client performs a single backoff sleep of 1, leaves the delay stuck at
2, and makes only one attempt — the delay never follows the claimed
1, 2, 4, 8, ... doubling sequence, because a failed connect attempt
(with `is_running` false) never re-enters the backoff path. -/
theorem backoff_never_doubles_twice (n : Nat) (h : 1 ≤ n) :
    (listenDrop (List.replicate n false) ⟨true, 1⟩).2.1 = [1] ∧
    (listenDrop (List.replicate n false) ⟨true, 1⟩).1.reconnect_delay = 2 ∧
    (listenDrop (List.replicate n false) ⟨true, 1⟩).2.2 = 1 := by
  cases n with
  | zero => omega
  | succ m =>
    simp [listenDrop, handleReconnect, reconnectResume, connect,
      maxReconnectDelay, List.replicate_succ]

/-- Witness for the backoff evidence theorem at n = 3. -/
theorem backoff_never_doubles_twice_witness :
    (listenDrop (List.replicate 3 false) ⟨true, 1⟩).2.1 = [1] ∧
    (listenDrop (List.replicate 3 false) ⟨true, 1⟩).1.reconnect_delay = 2 ∧
    (listenDrop (List.replicate 3 false) ⟨true, 1⟩).2.2 = 1 :=
  backoff_never_doubles_twice 3 (by omega)

/-- Evidence against claim C4: `stopWS` during an in-flight backoff
sleep does not prevent the reconnect. The sleep state after a drop is
`⟨false, 1⟩`; applying `stopWS` there and resuming still consumes a
connect attempt, and on success the client is running again after
stop. -/
theorem reconnect_attempt_after_stop :
    reconnectResume [true] (stopWS ⟨false, 1⟩) = (⟨true, 1⟩, [], 1) := by
  simp [reconnectResume, connect, stopWS, maxReconnectDelay]

/-- Evidence against claim C5: an initial connect failure (the flag still
false) makes exactly one attempt and never retries, no matter how many
further outcomes (n of them, all failures) the network would offer; the
same shape is the tail of every reconnect cycle, so a drop followed by
one failed attempt ends all reconnection. -/
theorem connect_failure_never_retries (n : Nat) (h : 1 ≤ n) :
    connect (List.replicate n false) initWS = (initWS, [], 1) := by
  cases n with
  | zero => omega
  | succ m => simp [connect, initWS, List.replicate_succ]

/-- Witness for the no-retry evidence theorem at n = 4. -/
theorem connect_failure_never_retries_witness :
    connect (List.replicate 4 false) initWS = (initWS, [], 1) :=
  connect_failure_never_retries 4 (by omega)

/-! ## Alert throttle (bot_ws.py `_check_arbitrage`)

The throttle state is the `last_alert` dict (alert key → timestamp).
The gate is the inlined condition
`key not in last_alert or (now - last_alert[key]) > alert_cooldown`;
a timestamp is recorded only when an alert actually fires (an
opportunity was found), which `checkStep` models with the oracle `opp`.
`runThrottle` runs a sequence of checks and returns the final dict and
the log of fired alerts as (time, key) pairs. -/

/-- The fixed cooldown window (bot_ws.py line 151). -/
def alert_cooldown : Int := 30

/-- The throttle gate condition of `_check_arbitrage` (lines 157, 182). -/
def gate (now : Int) (last : List (String × Int)) (key : String) : Bool :=
  match lookupA key last with
  | none => true
  | some t => decide (alert_cooldown < now - t)

/-- One gated check for one key: if the gate allows and the analyzer
finds an opportunity (`opp`), the alert fires and `now` is recorded for
the key (lines 157-161 and 182-195). -/
def checkStep (now : Int) (key : String) (opp : Bool)
    (last : List (String × Int)) : List (String × Int) × Bool :=
  if gate now last key then
    if opp then (insertA key now last, true) else (last, false)
  else (last, false)

/-- A sequence of checks, oldest first; returns the final dict and the
log of fired alerts. -/
def runThrottle :
    List (Int × String × Bool) → List (String × Int) →
      List (String × Int) × List (Int × String)
  | [], last => (last, [])
  | e :: rest, last =>
    let r := checkStep e.1 e.2.1 e.2.2 last
    let r2 := runThrottle rest r.1
    (r2.1, if r.2 then (e.1, e.2.1) :: r2.2 else r2.2)

/-- The times at which alerts fired for one key, oldest first. -/
def firedTimes (key : String) (log : List (Int × String)) : List Int :=
  (log.filter (fun e => decide (e.2 = key))).map Prod.fst

theorem firedTimes_cons (key : String) (now : Int) (k : String)
    (log : List (Int × String)) :
    firedTimes key ((now, k) :: log)
      = if k = key then now :: firedTimes key log else firedTimes key log := by
  by_cases h : k = key <;> simp [firedTimes, h]

theorem gate_some_lt {now t : Int} {last : List (String × Int)} {key : String}
    (hg : gate now last key = true) (hl : lookupA key last = some t) :
    t + alert_cooldown < now := by
  unfold gate at hg
  rw [hl] at hg
  simp at hg
  omega

theorem throttle_run_spec (events : List (Int × String × Bool))
    (last : List (String × Int)) (key : String) :
    List.Chain' (fun a b => a + alert_cooldown < b)
      (firedTimes key (runThrottle events last).2) ∧
    (∀ t, lookupA key last = some t →
      ∀ u, (firedTimes key (runThrottle events last).2).head? = some u →
        t + alert_cooldown < u) := by
  induction events generalizing last with
  | nil =>
    refine ⟨by simp [runThrottle, firedTimes], ?_⟩
    intro t ht u hu
    simp [runThrottle, firedTimes] at hu
  | cons e rest ih =>
    obtain ⟨now, k, opp⟩ := e
    by_cases hf : gate now last k = true ∧ opp = true
    · have hcs : checkStep now k opp last = (insertA k now last, true) := by
        simp [checkStep, hf.1, hf.2]
      by_cases hk : k = key
      · subst hk
        have hlk : lookupA k (insertA k now last) = some now :=
          lookupA_insertA_self k now last
        have ih2 := ih (insertA k now last)
        simp only [runThrottle, hcs, if_pos, firedTimes_cons, if_true]
        constructor
        · refine List.chain'_cons'.mpr ⟨?_, ih2.1⟩
          intro y hy
          exact ih2.2 now hlk y hy
        · intro t ht u hu
          simp only [List.head?_cons, Option.some_inj] at hu
          subst hu
          exact gate_some_lt hf.1 ht
      · have hlk : lookupA key (insertA k now last) = lookupA key last :=
          lookupA_insertA_other k key now last (Ne.symm hk)
        have ih2 := ih (insertA k now last)
        simp only [runThrottle, hcs, if_true]
        rw [firedTimes_cons]
        simp only [if_neg hk]
        refine ⟨ih2.1, ?_⟩
        intro t ht u hu
        exact ih2.2 t (by rwa [hlk]) u hu
    · have hcs : checkStep now k opp last = (last, false) := by
        unfold checkStep
        by_cases hg : gate now last k = true
        · have ho : opp = false := by
            cases opp
            · rfl
            · exact absurd ⟨hg, rfl⟩ hf
          simp [hg, ho]
        · simp [hg]
      have ih2 := ih last
      simp only [runThrottle, hcs]
      simpa using ih2

/-- Claim C6: along any run of gated checks starting from an empty
last-alert map, the fired-alert times for any one key are spaced more
than the 30-second cooldown apart (at most one alert per window), and
whenever more than the cooldown has elapsed since the recorded time for
a key, the gate returns true again for it. -/
theorem alert_throttle_cooldown (events : List (Int × String × Bool)) (key : String) :
    List.Chain' (fun a b => a + alert_cooldown < b)
      (firedTimes key (runThrottle events []).2) ∧
    (∀ (last : List (String × Int)) (t now : Int),
      lookupA key last = some t → alert_cooldown < now - t →
        gate now last key = true) := by
  refine ⟨(throttle_run_spec events [] key).1, ?_⟩
  intro last t now hl hlt
  unfold gate
  rw [hl]
  simpa using hlt

/-- Witness for C6 on a concrete run: alerts at times 0 and 40 for key
k (the check at time 10 is throttled), and the gate reopens at time 40
for a key recorded at time 5. -/
theorem alert_throttle_cooldown_witness :
    List.Chain' (fun a b => a + alert_cooldown < b)
      (firedTimes "k"
        (runThrottle [(0, "k", true), (10, "k", true), (40, "k", true)] []).2) ∧
    gate 40 [("k", 5)] "k" = true :=
  ⟨(alert_throttle_cooldown [(0, "k", true), (10, "k", true), (40, "k", true)] "k").1,
   (alert_throttle_cooldown [(0, "k", true), (10, "k", true), (40, "k", true)] "k").2
     [("k", 5)] 5 40 rfl (by decide)⟩

/-! ## Subscription registry (`KalshiWSClient.subscribe`)

State: `subscriptions` (channel → list of subscribed tickers) and
`handlers` (channel → registered observer callbacks, modelled by ids).
`subscribe` returns the new state together with the list of tickers put
on the wire subscribe command, or `none` when nothing is sent.
`hasWs` is the `if self.ws:` guard (true when the transport is up). -/

structure SubSt where
  subscriptions : List (String × List String)
  handlers : List (String × List Nat)
deriving DecidableEq

/-- Embedding of `KalshiWSClient.subscribe` (lines 193-214): append the
handler, ensure the channel key exists, compute the tickers not already
subscribed on the channel, and if any, extend the tracked set and (when
the transport is up) send a subscribe command for exactly those. -/
def subscribe (hasWs : Bool) (channel : String) (tickers : List String)
    (handler : Nat) (st : SubSt) : SubSt × Option (List String) :=
  let hs := (lookupA channel st.handlers).getD []
  let st1 : SubSt := { st with handlers := insertA channel (hs ++ [handler]) st.handlers }
  let subs0 := lookupA channel st1.subscriptions
  let st2 : SubSt :=
    match subs0 with
    | none => { st1 with subscriptions := insertA channel [] st1.subscriptions }
    | some _ => st1
  let subs := subs0.getD []
  let new_tickers := tickers.filter (fun t => !subs.contains t)
  if new_tickers.isEmpty then (st2, none)
  else
    let st3 : SubSt :=
      { st2 with subscriptions := insertA channel (subs ++ new_tickers) st2.subscriptions }
    (st3, if hasWs then some new_tickers else none)

/-- Claim C7: with the transport up, each subscribe call sends a wire
subscribe for exactly the requested tickers not already tracked on the
channel — nothing when that subset is empty — and extends the tracked
set by exactly those; in particular subscribing A,B then B,C on one
channel sends A,B and then only C. -/
theorem subscribe_sends_only_new (st : SubSt) (channel : String)
    (tickers : List String) (handler : Nat) :
    ((subscribe true channel tickers handler st).2 =
      if (tickers.filter
            (fun t => !((lookupA channel st.subscriptions).getD []).contains t)).isEmpty
      then none
      else some (tickers.filter
            (fun t => !((lookupA channel st.subscriptions).getD []).contains t))) ∧
    (lookupA channel (subscribe true channel tickers handler st).1.subscriptions =
      some (((lookupA channel st.subscriptions).getD []) ++
        tickers.filter
          (fun t => !((lookupA channel st.subscriptions).getD []).contains t))) ∧
    ((subscribe true "ticker" ["A", "B"] 0 ⟨[], []⟩).2 = some ["A", "B"] ∧
      (subscribe true "ticker" ["B", "C"] 1
        (subscribe true "ticker" ["A", "B"] 0 ⟨[], []⟩).1).2 = some ["C"]) := by
  refine ⟨?_, ?_, by decide, by decide⟩
  · unfold subscribe
    cases hs0 : lookupA channel st.subscriptions with
    | none =>
      simp only [hs0, Option.getD_none]
      split <;> simp_all
    | some cur =>
      simp only [hs0, Option.getD_some]
      split <;> simp_all
  · unfold subscribe
    cases hs0 : lookupA channel st.subscriptions with
    | none =>
      simp only [hs0, Option.getD_none]
      split
      next h =>
        rw [List.isEmpty_iff] at h
        rw [lookupA_insertA_self, h]
        rfl
      next h =>
        rw [lookupA_insertA_self]
    | some cur =>
      simp only [hs0, Option.getD_some]
      split
      next h =>
        rw [List.isEmpty_iff] at h
        rw [hs0, h]
        simp
      next h =>
        rw [lookupA_insertA_self]
